import Mathlib

/-!
# Verification of the tag fan-out / alarm / register-codec core

This file is a shallow embedding, in Lean 4, of the core logic of
`src/publishers.py`:

* the MODBUS register allocator and value codec
  (`ModbusTCPPublisher.allocate_registers`, `ModbusTCPPublisher.start`,
  `ModbusTCPPublisher.value_to_registers`),
* the alarm rule engine (`AlarmsPublisher.publish`, `_evaluate_condition`,
  `_trigger_alarm`, `_clear_alarm`, `acknowledge_alarm`),
* the fan-out dispatcher (`PublisherManager.publish_to_all`,
  `PublisherManager.toggle_publisher`),
* the REST API sink state (`RESTAPIPublisher.publish` / `stop`).

Python dictionaries are modelled as association lists built only through
`setKey` (update-first-occurrence-or-append), which preserves key
uniqueness, so lookup/erase agree with dict semantics.  Python `float`
values and timestamps are modelled as exact rationals (every concrete
value appearing in the claims is exactly representable in binary64, so
ordering comparisons agree).  The 32-bit IEEE-754 *pattern* produced by
`struct.pack` for a representable float is modelled directly as a natural
number below `2 ^ 32`.  Python strings on the codec path are modelled as
their lists of code points (`ord` values).
-/

namespace Spec2Proof

/-! ## Association-list model of Python dicts -/
/-- First-occurrence lookup, matching Python dict lookup on unique keys. -/
def lookupKey {α : Type} : List (String × α) → String → Option α
  | [], _ => none
  | (k1, v1) :: t, k => if k1 = k then some v1 else lookupKey t k

/-- Dict assignment: replace the first binding of the key, or append a new
binding.  Starting from `[]`, this keeps keys unique. -/
def setKey {α : Type} : List (String × α) → String → α → List (String × α)
  | [], k, v => [(k, v)]
  | (k1, v1) :: t, k, v =>
      if k1 = k then (k, v) :: t else (k1, v1) :: setKey t k v

/-- Dict deletion (`del d[k]`); on the unique-key lists arising here it
removes exactly the binding of `k`. -/
def eraseKey {α : Type} : List (String × α) → String → List (String × α)
  | [], _ => []
  | (k1, v1) :: t, k => if k1 = k then eraseKey t k else (k1, v1) :: eraseKey t k

/-! ## MODBUS register allocator

Embeds `ModbusTCPPublisher.allocate_registers` (src/publishers.py lines
1263-1307) and the explicit `register_mapping` loading performed by
`ModbusTCPPublisher.start` (lines 1322-1335).  The derived reverse map
`register_tag_map` is write-only for the claims considered and is omitted. -/
/-- Register-map entry, as stored in `tag_register_map`. -/
structure RegInfo where
  start_register : Nat
  num_registers : Nat
  type : String
deriving Repr, DecidableEq

/-- Allocator state of `ModbusTCPPublisher`. -/
structure ModbusState where
  tag_register_map : List (String × RegInfo)
  next_register : Nat
deriving Repr

/-- State set up by `ModbusTCPPublisher.__init__`. -/
def initModbus : ModbusState := { tag_register_map := [], next_register := 0 }

/-- Words needed per tag type (body of `allocate_registers`): float 2,
int 1, bool 1, string 32, anything else 1. -/
def numRegistersFor (tag_type : String) : Nat :=
  if tag_type = "float" then 2
  else if tag_type = "int" then 1
  else if tag_type = "bool" then 1
  else if tag_type = "string" then 32
  else 1

/-- `ModbusTCPPublisher.allocate_registers`: return the existing start
register if the tag is already mapped, otherwise assign the next free
range and advance the free-offset counter. -/
def allocate_registers (s : ModbusState) (tag_name tag_type : String) :
    Nat × ModbusState :=
  match lookupKey s.tag_register_map tag_name with
  | some info => (info.start_register, s)
  | none =>
      let num_registers := numRegistersFor tag_type
      let start_register := s.next_register
      (start_register,
        { tag_register_map :=
            setKey s.tag_register_map tag_name
              { start_register := start_register
                num_registers := num_registers
                type := tag_type },
          next_register := s.next_register + num_registers })

/-- One entry of the `register_mapping` config dict consumed by
`ModbusTCPPublisher.start` (only entries carrying an explicit
`"register"` key have an effect there). -/
structure StaticMapping where
  tag : String
  register : Nat
  type : String
deriving Repr, DecidableEq

/-- Loading of one explicit static mapping in `ModbusTCPPublisher.start`:
`num_regs = 2 if tag_type == "float" else 1`, unconditional map write,
`next_register = max(next_register, start_reg + num_regs)`. -/
def load_static_mapping (s : ModbusState) (m : StaticMapping) : ModbusState :=
  let num_regs := if m.type = "float" then 2 else 1
  { tag_register_map :=
      setKey s.tag_register_map m.tag
        { start_register := m.register, num_registers := num_regs, type := m.type },
    next_register := max s.next_register (m.register + num_regs) }

/-- The whole `register_mapping` loop of `ModbusTCPPublisher.start`. -/
def load_static_mappings (s : ModbusState) (ms : List StaticMapping) : ModbusState :=
  ms.foldl load_static_mapping s

/-- Run a sequence of `allocate_registers` calls (tag, type), keeping
only the final state. -/
def runAllocs (s : ModbusState) (calls : List (String × String)) : ModbusState :=
  calls.foldl (fun st c => (allocate_registers st c.1 c.2).2) s

/-! ## MODBUS value codec

Embeds `ModbusTCPPublisher.value_to_registers` (lines 1384-1430), one
definition per `tag_type` branch. -/
/-- `"float"` branch: `struct.pack` of the binary32 value, big-endian,
split into two 16-bit words.  `bits` is the 32-bit IEEE-754 pattern of
`float(value)`; the two words are its high and low halves. -/
def value_to_registers_float (bits : Nat) : List Nat :=
  [bits / 65536, bits % 65536]

/-- `"int"` branch: clamp to the signed 16-bit range, then take the low
16 bits (Python `& 0xFFFF` on an `int` is the nonnegative residue). -/
def value_to_registers_int (value : Int) : List Nat :=
  let int_value : Int :=
    if value > 32767 then 32767
    else if value < -32768 then -32768
    else value
  [(int_value % 65536).toNat]

/-- `"bool"` branch. -/
def value_to_registers_bool (value : Bool) : List Nat :=
  [if value then 1 else 0]

/-- Packing loop of the `"string"` branch: two 8-bit code units per word,
big-endian; an odd trailing code unit is paired with 0. -/
def packPairs : List Nat → List Nat
  | [] => []
  | [c1] => [(c1 <<< 8) ||| 0]
  | c1 :: c2 :: rest => ((c1 <<< 8) ||| c2) :: packPairs rest

/-- `"string"` branch: truncate to 64 code units, pack two per word,
zero-pad to 32 words.  `codes` is the list of `ord` values of the Python
string. -/
def value_to_registers_string (codes : List Nat) : List Nat :=
  let packed := packPairs (codes.take 64)
  packed ++ List.replicate (32 - packed.length) 0

/-! ## Claim C4: range disjointness -/
/-- Every stored range is sized by its type, nonempty, and below the
free-offset counter. -/
def AllocBounds (s : ModbusState) : Prop :=
  ∀ t r, lookupKey s.tag_register_map t = some r →
    r.num_registers = numRegistersFor r.type ∧
    1 ≤ r.num_registers ∧
    r.start_register + r.num_registers ≤ s.next_register

/-- Ranges of distinct tags do not intersect. -/
def AllocDisjoint (s : ModbusState) : Prop :=
  ∀ t1 t2 r1 r2, t1 ≠ t2 →
    lookupKey s.tag_register_map t1 = some r1 →
    lookupKey s.tag_register_map t2 = some r2 →
    r1.start_register + r1.num_registers ≤ r2.start_register ∨
    r2.start_register + r2.num_registers ≤ r1.start_register

/-- Allocator state after loading two explicit static mappings, float at
register 0 and int at register 1, exactly as `ModbusTCPPublisher.start`
does. -/
def staticOverlapState : ModbusState :=
  load_static_mappings initModbus
    [{ tag := "A", register := 0, type := "float" },
     { tag := "B", register := 1, type := "int" }]

/-! ## Claim C7: codec round-trip

The repository has no register *decoder* under src/ (only the reverse
`register_tag_map` used by external MODBUS reads), so the decoders below
are modelled from the spec, one per kind. -/
/-- Modelled from the spec: decoder for the `"bool"` kind, missing from
src/ — a single word, 1 for true and 0 for false. -/
def registers_to_bool (regs : List Nat) : Bool :=
  regs.headD 0 == 1

/-- Modelled from the spec: decoder for the `"int"` kind, missing from
src/ — the low 16 bits of a signed 16-bit value, so words at or above
32768 represent negative values. -/
def registers_to_int (regs : List Nat) : Int :=
  let w := regs.headD 0
  if w ≥ 32768 then (w : Int) - 65536 else (w : Int)

/-- Modelled from the spec: decoder for the `"float"` kind, missing from
src/ — rejoin the big-endian 16-bit halves into the 32-bit IEEE-754
pattern. -/
def registers_to_float (regs : List Nat) : Nat :=
  match regs with
  | [w1, w2] => w1 * 65536 + w2
  | _ => 0

/-- Byte-pair unpacking of words, big-endian (high 8-bit code unit
first). -/
def wordsToBytes : List Nat → List Nat
  | [] => []
  | w :: rest => w / 256 :: w % 256 :: wordsToBytes rest

/-- Strip the zero padding at the end of the fixed 32-word slot. -/
def dropTrailingZeros (l : List Nat) : List Nat :=
  (l.reverse.dropWhile (fun c => c == 0)).reverse

/-- Modelled from the spec: decoder for the `"string"` kind, missing from
src/ — unpack two 8-bit code units per word and strip the zero padding. -/
def registers_to_string (regs : List Nat) : List Nat :=
  dropTrailingZeros (wordsToBytes regs)

/-! ## Alarm rule engine

Embeds `AlarmsPublisher` (src/publishers.py lines 1485-1867).  Tag
values and timestamps are numeric here (the claims under verification
feed numeric tags); Python floats are modelled as exact rationals.
`time.time()` is modelled by an explicit `clock` argument, and the Python
idiom `timestamp or time.time()` — which falls back to the clock when the
timestamp is `None` *or zero*, since `0.0` is falsy — is `effTime`. -/
/-- `timestamp or time.time()`. -/
def effTime (clock : ℚ) (timestamp : Option ℚ) : ℚ :=
  match timestamp with
  | none => clock
  | some t => if t = 0 then clock else t

/-- A parsed alarm rule (one element of `parsed_rules`). -/
structure AlarmRule where
  name : String
  tag : String
  condition : String
  threshold : ℚ
  priority : String
  debounce_seconds : ℚ
  message : String
  auto_clear : Bool
  channels : List String
deriving Repr, DecidableEq

inductive AlarmStatus
  | ACTIVE
  | CLEARED
deriving Repr, DecidableEq

/-- An alarm record, as built by `_trigger_alarm` and later mutated.  The
acknowledgement fields are absent in the freshly-built Python dict and
added by `acknowledge_alarm`; they are modelled with `false`/`none`
defaults. -/
structure Alarm where
  rule_name : String
  tag : String
  priority : String
  message : String
  triggered_value : ℚ
  last_value : ℚ
  triggered_at : ℚ
  last_update : ℚ
  cleared_at : Option ℚ
  cleared_value : Option ℚ
  status : AlarmStatus
  acknowledged : Bool
  acknowledged_by : Option String
  acknowledged_at : Option ℚ
deriving Repr, DecidableEq

/-- Mutable state of `AlarmsPublisher`.  `notifications_sent` logs one
entry per `_send_notifications` dispatch (each dispatch fans out to the
rule's whole channel list). -/
structure AlarmsState where
  enabled : Bool
  running : Bool
  parsed_rules : List AlarmRule
  history_size : Nat
  active_alarms : List (String × Alarm)
  alarm_history : List Alarm
  last_notification : List (String × ℚ)
  notifications_sent : List Alarm
deriving Repr, DecidableEq

/-- The `f"{rule['name']}_{tag_name}"` key joining rule name and tag. -/
def rule_key (rule_name tag_name : String) : String :=
  rule_name ++ "_" ++ tag_name

/-- `deque(maxlen=n)` append: drop from the left when full. -/
def dequeAppend {α : Type} (maxlen : Nat) (xs : List α) (x : α) : List α :=
  let ys := xs ++ [x]
  if maxlen < ys.length then ys.drop (ys.length - maxlen) else ys

/-- `AlarmsPublisher._evaluate_condition` on numeric operands (numeric
comparisons coerce through `float`, which is the identity here). -/
def evaluate_condition (value : ℚ) (condition : String) (threshold : ℚ) : Bool :=
  if condition = ">" then value > threshold
  else if condition = ">=" then value ≥ threshold
  else if condition = "<" then value < threshold
  else if condition = "<=" then value ≤ threshold
  else if condition = "==" then value = threshold
  else if condition = "!=" then value ≠ threshold
  else false

/-- The in-place mutation `publish` performs on an already-active alarm:
only `last_value` and `last_update` change. -/
def updatedAlarm (a : Alarm) (v t : ℚ) : Alarm :=
  { a with last_value := v, last_update := t }

/-- The alarm record dict built by `_trigger_alarm`. -/
def freshAlarm (rule : AlarmRule) (tag_name : String) (value now : ℚ) : Alarm :=
  { rule_name := rule.name
    tag := tag_name
    priority := rule.priority
    message := rule.message
    triggered_value := value
    last_value := value
    triggered_at := now
    last_update := now
    cleared_at := none
    cleared_value := none
    status := AlarmStatus.ACTIVE
    acknowledged := false
    acknowledged_by := none
    acknowledged_at := none }

/-- `AlarmsPublisher._trigger_alarm`: debounce check against the last
notification for this key, then create the ACTIVE record, store it,
append a copy to history, dispatch notifications and stamp the
notification time. -/
def trigger_alarm (clock : ℚ) (s : AlarmsState) (rule : AlarmRule) (tag_name : String)
    (value : ℚ) (timestamp : Option ℚ) : AlarmsState :=
  let key := rule_key rule.name tag_name
  let now := effTime clock timestamp
  let debounced : Bool :=
    match lookupKey s.last_notification key with
    | some last => decide (now - last < rule.debounce_seconds)
    | none => false
  if debounced then s
  else
    let alarm : Alarm := freshAlarm rule tag_name value now
    { s with
        active_alarms := setKey s.active_alarms key alarm
        alarm_history := dequeAppend s.history_size s.alarm_history alarm
        notifications_sent := s.notifications_sent ++ [alarm]
        last_notification := setKey s.last_notification key now }

/-- `AlarmsPublisher._clear_alarm`: mark CLEARED, stamp the clear time
and value, append the cleared copy to history, remove from the active
set, and send a clear notification only when the rule's channel list
contains `"clear"`.  (`publish` only calls this when the key is active;
the `none` branch is unreachable from `alarms_publish`.) -/
def clear_alarm (clock : ℚ) (s : AlarmsState) (rule : AlarmRule) (tag_name : String)
    (value : ℚ) (timestamp : Option ℚ) : AlarmsState :=
  let key := rule_key rule.name tag_name
  let now := effTime clock timestamp
  match lookupKey s.active_alarms key with
  | none => s
  | some alarm =>
      let cleared : Alarm :=
        { alarm with
            status := AlarmStatus.CLEARED
            cleared_at := some now
            cleared_value := some value }
      let s2 :=
        { s with
            active_alarms := eraseKey s.active_alarms key
            alarm_history := dequeAppend s.history_size s.alarm_history cleared }
      if rule.channels.contains ("clear") then
        { s2 with notifications_sent := s2.notifications_sent ++
            [{ cleared with message := ("CLEARED: ") ++ rule.message }] }
      else s2

/-- Body of the per-rule loop of `AlarmsPublisher.publish`. -/
def process_rule (clock : ℚ) (tag_name : String) (value : ℚ) (timestamp : Option ℚ)
    (s : AlarmsState) (rule : AlarmRule) : AlarmsState :=
  if rule.tag ≠ tag_name then s
  else
    let triggered := evaluate_condition value rule.condition rule.threshold
    let key := rule_key rule.name tag_name
    if triggered then
      match lookupKey s.active_alarms key with
      | none => trigger_alarm clock s rule tag_name value timestamp
      | some alarm =>
          { s with
              active_alarms := setKey s.active_alarms key
                { alarm with
                    last_value := value
                    last_update := effTime clock timestamp } }
    else
      if (lookupKey s.active_alarms key).isSome && rule.auto_clear then
        clear_alarm clock s rule tag_name value timestamp
      else s

/-- `AlarmsPublisher.publish`: no-op unless enabled and running, else run
every rule (in order) against the update. -/
def alarms_publish (clock : ℚ) (s : AlarmsState) (tag_name : String) (value : ℚ)
    (timestamp : Option ℚ) : AlarmsState :=
  if s.enabled && s.running then
    s.parsed_rules.foldl (process_rule clock tag_name value timestamp) s
  else s

/-- `AlarmsPublisher.acknowledge_alarm`: look the key up in the active
set, mark it acknowledged and return whether it existed. -/
def acknowledge_alarm (clock : ℚ) (s : AlarmsState) (rule_name tag_name user : String) :
    Bool × AlarmsState :=
  let key := rule_key rule_name tag_name
  match lookupKey s.active_alarms key with
  | some alarm =>
      (true,
        { s with
            active_alarms := setKey s.active_alarms key
              { alarm with
                  acknowledged := true
                  acknowledged_by := some user
                  acknowledged_at := some clock } })
  | none => (false, s)

/-- Run a sequence of `(clock, value, timestamp)` updates for one tag
through `AlarmsPublisher.publish`. -/
def alarms_publish_seq (s : AlarmsState) (tag : String)
    (updates : List (ℚ × ℚ × Option ℚ)) : AlarmsState :=
  updates.foldl (fun st u => alarms_publish u.1 st tag u.2.1 u.2.2) s

/-- The spec's example rule: tag T, `>` 25.0, debounce 60 s. -/
def demoRule : AlarmRule :=
  { name := "High"
    tag := "T"
    condition := ">"
    threshold := 25
    priority := "CRITICAL"
    debounce_seconds := 60
    message := "Temperature is too high!"
    auto_clear := true
    channels := [("log")] }

/-- A started `AlarmsPublisher` configured with just `demoRule`. -/
def demoAlarmsState : AlarmsState :=
  { enabled := true
    running := true
    parsed_rules := [demoRule]
    history_size := 1000
    active_alarms := []
    alarm_history := []
    last_notification := []
    notifications_sent := [] }

/-! ## Claim C10: alarm identity by string concatenation -/
/-- A rule whose name itself contains an underscore: rule "A_B" watching
tag "C". -/
def collisionRule : AlarmRule :=
  { name := "A_B"
    tag := "C"
    condition := ">"
    threshold := 25
    priority := "WARNING"
    debounce_seconds := 60
    message := "m"
    auto_clear := true
    channels := [("log")] }

/-- A started `AlarmsPublisher` configured with just `collisionRule`. -/
def collisionState0 : AlarmsState :=
  { enabled := true
    running := true
    parsed_rules := [collisionRule]
    history_size := 1000
    active_alarms := []
    alarm_history := []
    last_notification := []
    notifications_sent := [] }

/-- State after tag "C" = 30 triggers rule "A_B" at t = 5. -/
def collisionState1 : AlarmsState :=
  alarms_publish 5 collisionState0 ("C") 30 (some 5)

/-! ## Fan-out dispatcher

Embeds `PublisherManager.publish_to_all` (src/publishers.py lines
3658-3693).  A registered sink is modelled by its observable state: its
metrics name, whether it is the Prometheus metrics sink, whether its
`publish` raises on this call, and its tag cache (the state a successful
delivery updates — e.g. the REST sink's `tag_cache`).  The per-sink
message/error counters live in the Prometheus sink's metrics in the
source; `publish_to_all` only touches them when
`_get_prometheus_publisher()` finds that sink, which the model expresses
by guarding the counter updates on the presence of a Prometheus sink. -/
structure Sink where
  name : String
  isPrometheus : Bool
  fails : Bool
  cache : List (String × ℚ)
deriving Repr, DecidableEq

/-- One sink's `publish` call: raises (`Except.error`), or records the
update in the sink's observable state. -/
def sink_publish (sink : Sink) (tag : String) (value : ℚ) : Except Unit Sink :=
  if sink.fails then Except.error ()
  else Except.ok { sink with cache := setKey sink.cache tag value }

structure ManagerState where
  sinks : List Sink
  message_counts : List (String × Nat)
  error_counts : List (String × Nat)
deriving Repr, DecidableEq

/-- `Counter.labels(name).inc()`: counters start at 0. -/
def bump (m : List (String × Nat)) (k : String) : List (String × Nat) :=
  setKey m k ((lookupKey m k).getD 0 + 1)

/-- One iteration of the `publish_to_all` loop: try the sink's publish;
on success record a message for it (unless it is the Prometheus sink
itself, which the loop skips with `continue`); on exception catch, log
and record an error.  Counters are recorded only when a Prometheus sink
is registered. -/
def publish_step (hasProm : Bool) (tag : String) (value : ℚ)
    (acc : ManagerState) (sink : Sink) : ManagerState :=
  match sink_publish sink tag value with
  | Except.ok sink2 =>
      if sink.isPrometheus then { acc with sinks := acc.sinks ++ [sink2] }
      else if hasProm then
        { acc with
            sinks := acc.sinks ++ [sink2]
            message_counts := bump acc.message_counts sink.name }
      else { acc with sinks := acc.sinks ++ [sink2] }
  | Except.error _ =>
      if hasProm then
        { acc with
            sinks := acc.sinks ++ [sink]
            error_counts := bump acc.error_counts sink.name }
      else { acc with sinks := acc.sinks ++ [sink] }

/-- `PublisherManager.publish_to_all`: deliver one update to every
registered sink in order, isolating each sink's failure.  A total
function: every exception a sink raises is caught inside the loop, so
the dispatcher call itself never raises. -/
def publish_to_all (m : ManagerState) (tag : String) (value : ℚ) : ManagerState :=
  let hasProm := m.sinks.any (fun s2 => s2.isPrometheus)
  m.sinks.foldl (publish_step hasProm tag value) { m with sinks := [] }

/-- What one delivery does to one sink: nothing when its publish raises,
a cache update otherwise. -/
def sinkAfter (tag : String) (value : ℚ) (sink : Sink) : Sink :=
  if sink.fails then sink else { sink with cache := setKey sink.cache tag value }

/-! ## Sink registry / toggle

Embeds `PublisherManager.toggle_publisher` (lines 3736-3777) and the
start behaviour of the publishers it drives.  The manager reverts
`enabled` and reports failure only when `start()` raises; a publisher
class may instead catch its own start errors internally — notably
`MQTTPublisher.start` (lines 186-221) wraps its whole body in
try/except, so a broker connection error only logs and leaves
`running = False`, and no exception ever reaches the manager. -/
inductive StartBehavior
  | ok
  | caught
  | raises
deriving Repr, DecidableEq

structure Publisher where
  name : String
  enabled : Bool
  running : Bool
  startB : StartBehavior
deriving Repr, DecidableEq

/-- `MQTTPublisher.start`: no-op when disabled; otherwise everything is
inside try/except — with the broker reachable it connects and sets
`running = True`; a connection error is caught, logged, and leaves
`running = False`.  It returns normally in both cases. -/
def mqtt_start (connectOk : Bool) (p : Publisher) : Publisher :=
  if ¬ p.enabled then p
  else if connectOk then { p with running := true }
  else { p with running := false }

/-- How `MQTTPublisher.start` presents to the manager: it never lets an
exception escape. -/
def mqttBehavior (connectOk : Bool) : StartBehavior :=
  if connectOk then StartBehavior.ok else StartBehavior.caught

/-- A publisher's `start()` as the manager observes it. -/
def pub_start (p : Publisher) : Except Unit Publisher :=
  match p.startB with
  | StartBehavior.ok => Except.ok { p with running := true }
  | StartBehavior.caught => Except.ok { p with running := false }
  | StartBehavior.raises => Except.error ()

/-- A publisher's `stop()`. -/
def pub_stop (p : Publisher) : Publisher :=
  { p with running := false }

/-- The body of `toggle_publisher` once the named publisher is found:
flip `enabled`; when enabling, call `start()` and — only if it raises —
set `enabled` back to False and return False; when disabling, call
`stop()` and return True. -/
def toggle_found (p : Publisher) : Bool × Publisher :=
  let p2 := { p with enabled := ¬ p.enabled }
  if p2.enabled then
    match pub_start p2 with
    | Except.ok p3 => (true, p3)
    | Except.error _ => (false, { p2 with enabled := false })
  else
    (true, pub_stop p2)

/-- `PublisherManager.toggle_publisher`: scan the registered publishers
for the friendly name, toggle the first match, return False if none
matches. -/
def toggle_publisher : List Publisher → String → Bool × List Publisher
  | [], _ => (false, [])
  | p :: rest, nm =>
      if p.name = nm then
        ((toggle_found p).1, (toggle_found p).2 :: rest)
      else
        ((toggle_publisher rest nm).1, p :: (toggle_publisher rest nm).2)

/-! ## REST API sink

Embeds `RESTAPIPublisher.publish` (lines 720-735) and `stop` (lines
713-718). -/
structure CacheEntry where
  value : ℚ
  timestamp : ℚ
deriving Repr, DecidableEq

structure RESTState where
  enabled : Bool
  running : Bool
  tag_cache : List (String × CacheEntry)
deriving Repr, DecidableEq

/-- `RESTAPIPublisher.publish`: returns immediately when `enabled` is
false, otherwise writes the cache entry.  Note it never consults
`running`. -/
def rest_publish (clock : ℚ) (s : RESTState) (tag_name : String) (value : ℚ)
    (timestamp : Option ℚ) : RESTState :=
  if ¬ s.enabled then s
  else
    { s with
        tag_cache := setKey s.tag_cache tag_name
          { value := value, timestamp := effTime clock timestamp } }

/-- `RESTAPIPublisher.stop`: just clears `running`. -/
def rest_stop (s : RESTState) : RESTState :=
  { s with running := false }

/-- A sequence of `(clock, tag, value, timestamp)` deliveries. -/
def rest_publish_seq (s : RESTState) (updates : List (ℚ × String × ℚ × Option ℚ)) :
    RESTState :=
  updates.foldl (fun st u => rest_publish u.1 st u.2.1 u.2.2.1 u.2.2.2) s

theorem lookupKey_setKey_self {α : Type} (m : List (String × α)) (k : String) (v : α) :
    lookupKey (setKey m k v) k = some v := by
  induction m with
  | nil => simp [setKey, lookupKey]
  | cons kv t ih =>
      by_cases h : kv.1 = k
      · simp [setKey, h, lookupKey]
      · simp [setKey, h, lookupKey, ih]

theorem lookupKey_setKey_ne {α : Type} (m : List (String × α)) (k k2 : String) (v : α)
    (h : k2 ≠ k) : lookupKey (setKey m k v) k2 = lookupKey m k2 := by
  have hne : ¬ k = k2 := fun h2 => h h2.symm
  induction m with
  | nil => simp [setKey, lookupKey, hne]
  | cons kv t ih =>
      by_cases h1 : kv.1 = k
      · have hk2 : ¬ kv.1 = k2 := by rw [h1]; exact hne
        simp [setKey, h1, lookupKey, hne, hk2]
      · by_cases h2 : kv.1 = k2
        · simp [setKey, h1, lookupKey, h2, h]
        · simp [setKey, h1, lookupKey, h2, ih]

theorem lookupKey_eraseKey_self {α : Type} (m : List (String × α)) (k : String) :
    lookupKey (eraseKey m k) k = none := by
  induction m with
  | nil => simp [eraseKey, lookupKey]
  | cons kv t ih =>
      by_cases h : kv.1 = k
      · simpa [eraseKey, h] using ih
      · simpa [eraseKey, h, lookupKey] using ih

theorem lookupKey_eraseKey_ne {α : Type} (m : List (String × α)) (k k2 : String)
    (h : k2 ≠ k) : lookupKey (eraseKey m k) k2 = lookupKey m k2 := by
  have hne : ¬ k = k2 := fun h2 => h h2.symm
  induction m with
  | nil => simp [eraseKey, lookupKey]
  | cons kv t ih =>
      by_cases h1 : kv.1 = k
      · simpa [eraseKey, h1, lookupKey, hne] using ih
      · by_cases h2 : kv.1 = k2
        · simp [eraseKey, h1, lookupKey, h2, h]
        · simpa [eraseKey, h1, lookupKey, h2] using ih

/-! ## Claim C6: integer encode saturation -/
/-- Claim C6: encoding with kind `int` always yields a single 16-bit
word; every value above 32767 encodes like 32767 and every value below
-32768 encodes like -32768 (saturation, not wrap-around), and the
encoder is a total function (it never raises). -/
theorem int_encode_saturates (value : Int) :
    (value_to_registers_int value).length = 1 ∧
    (∀ w ∈ value_to_registers_int value, w < 65536) ∧
    (value > 32767 → value_to_registers_int value = value_to_registers_int 32767) ∧
    (value < -32768 → value_to_registers_int value = value_to_registers_int (-32768)) := by
  refine ⟨rfl, ?_, ?_, ?_⟩
  · intro w hw
    simp only [value_to_registers_int, List.mem_singleton] at hw
    subst hw
    have h65536 : (65536 : Int) ≠ 0 := by decide
    have h1 : 0 ≤ (if value > 32767 then (32767 : Int)
        else if value < -32768 then -32768 else value) % 65536 :=
      Int.emod_nonneg _ h65536
    have h2 : (if value > 32767 then (32767 : Int)
        else if value < -32768 then -32768 else value) % 65536 < 65536 :=
      Int.emod_lt_of_pos _ (by decide)
    omega
  · intro h
    simp [value_to_registers_int, h]
  · intro h
    have h2 : ¬ value > 32767 := by omega
    simp [value_to_registers_int, h, h2]

/-- Witness for `int_encode_saturates` at the spec's example input 40000
(and at -40000 for the low side). -/
theorem int_encode_saturates_witness :
    value_to_registers_int 40000 = value_to_registers_int 32767 ∧
    value_to_registers_int (-40000) = value_to_registers_int (-32768) ∧
    (value_to_registers_int 40000).length = 1 :=
  ⟨(int_encode_saturates 40000).2.2.1 (by decide),
   (int_encode_saturates (-40000)).2.2.2 (by decide),
   (int_encode_saturates 40000).1⟩

/-! ## Allocator lemmas -/
theorem numRegistersFor_pos (ty : String) : 1 ≤ numRegistersFor ty := by
  unfold numRegistersFor
  repeat' split
  all_goals omega

/-- `allocate_registers` never modifies the binding of any tag that is
already mapped. -/
theorem allocate_preserves_existing (s : ModbusState) (tag ty t : String) (r : RegInfo)
    (h : lookupKey s.tag_register_map t = some r) :
    lookupKey (allocate_registers s tag ty).2.tag_register_map t = some r := by
  unfold allocate_registers
  cases hl : lookupKey s.tag_register_map tag with
  | some info => simpa using h
  | none =>
      by_cases ht : t = tag
      · rw [ht] at h; rw [h] at hl; cases hl
      · simpa [lookupKey_setKey_ne _ _ _ _ ht] using h

/-- Any sequence of further `allocate_registers` calls leaves every
existing binding untouched. -/
theorem runAllocs_preserves_existing (calls : List (String × String)) (s : ModbusState)
    (t : String) (r : RegInfo) (h : lookupKey s.tag_register_map t = some r) :
    lookupKey (runAllocs s calls).tag_register_map t = some r := by
  induction calls generalizing s with
  | nil => simpa [runAllocs]
  | cons c rest ih =>
      have h2 := allocate_preserves_existing s c.1 c.2 t r h
      simpa [runAllocs] using ih _ h2

/-- After any call, the tag is bound and the returned start register is
the bound one. -/
theorem allocate_binds (s : ModbusState) (tag ty : String) :
    ∃ info, lookupKey (allocate_registers s tag ty).2.tag_register_map tag = some info ∧
      (allocate_registers s tag ty).1 = info.start_register := by
  unfold allocate_registers
  cases hl : lookupKey s.tag_register_map tag with
  | some info => exact ⟨info, by simpa using hl, rfl⟩
  | none => exact ⟨_, by simpa using lookupKey_setKey_self s.tag_register_map tag _, rfl⟩

/-- A call on an already-bound tag returns the bound start register and
changes nothing. -/
theorem allocate_of_bound (s : ModbusState) (tag ty : String) (r : RegInfo)
    (h : lookupKey s.tag_register_map tag = some r) :
    allocate_registers s tag ty = (r.start_register, s) := by
  unfold allocate_registers
  rw [h]

/-- Claim C5: allocation is idempotent and stable.  For every starting
state, tag and kinds, the binding created (or found) by the first
`allocate_registers` call survives any sequence of intervening calls
unchanged, and a repeated call returns the identical start register (and
the identical stored `(start_register, num_registers)` pair, since the
binding is unchanged) while modifying nothing. -/
theorem allocate_idempotent_stable (s0 : ModbusState) (tag ty ty2 : String)
    (calls : List (String × String)) :
    ∃ info,
      lookupKey (allocate_registers s0 tag ty).2.tag_register_map tag = some info ∧
      (allocate_registers s0 tag ty).1 = info.start_register ∧
      lookupKey (runAllocs (allocate_registers s0 tag ty).2 calls).tag_register_map tag
        = some info ∧
      allocate_registers (runAllocs (allocate_registers s0 tag ty).2 calls) tag ty2
        = (info.start_register, runAllocs (allocate_registers s0 tag ty).2 calls) := by
  obtain ⟨info, hbind, hstart⟩ := allocate_binds s0 tag ty
  have hkeep := runAllocs_preserves_existing calls _ tag info hbind
  exact ⟨info, hbind, hstart, hkeep, allocate_of_bound _ tag ty2 info hkeep⟩

theorem allocate_preserves_inv (s : ModbusState) (tag ty : String)
    (hb : AllocBounds s) (hd : AllocDisjoint s) :
    AllocBounds (allocate_registers s tag ty).2 ∧
    AllocDisjoint (allocate_registers s tag ty).2 := by
  unfold allocate_registers
  cases hl : lookupKey s.tag_register_map tag with
  | some info => exact ⟨hb, hd⟩
  | none =>
      simp only
      set rNew : RegInfo :=
        { start_register := s.next_register
          num_registers := numRegistersFor ty
          type := ty } with hrNew
      have hlook : ∀ t, lookupKey (setKey s.tag_register_map tag rNew) t =
          if t = tag then some rNew else lookupKey s.tag_register_map t := by
        intro t
        by_cases ht : t = tag
        · rw [if_pos ht, ht, lookupKey_setKey_self]
        · rw [if_neg ht, lookupKey_setKey_ne _ _ _ _ ht]
      constructor
      · intro t r hr
        rw [hlook t] at hr
        by_cases ht : t = tag
        · rw [if_pos ht] at hr
          cases hr
          exact ⟨rfl, numRegistersFor_pos ty, le_refl _⟩
        · rw [if_neg ht] at hr
          obtain ⟨h1, h2, h3⟩ := hb t r hr
          refine ⟨h1, h2, ?_⟩
          show r.start_register + r.num_registers ≤ s.next_register + numRegistersFor ty
          omega
      · intro t1 t2 r1 r2 hne h1 h2
        rw [hlook t1] at h1
        rw [hlook t2] at h2
        by_cases ht1 : t1 = tag
        · rw [if_pos ht1] at h1
          cases h1
          have ht2 : ¬ t2 = tag := by rw [ht1] at hne; exact fun h => hne h.symm
          rw [if_neg ht2] at h2
          obtain ⟨_, _, h3⟩ := hb t2 r2 h2
          right
          simpa using h3
        · rw [if_neg ht1] at h1
          by_cases ht2 : t2 = tag
          · rw [if_pos ht2] at h2
            cases h2
            obtain ⟨_, _, h3⟩ := hb t1 r1 h1
            left
            simpa using h3
          · rw [if_neg ht2] at h2
            exact hd t1 t2 r1 r2 hne h1 h2

theorem runAllocs_inv (calls : List (String × String)) (s : ModbusState)
    (hb : AllocBounds s) (hd : AllocDisjoint s) :
    AllocBounds (runAllocs s calls) ∧ AllocDisjoint (runAllocs s calls) := by
  induction calls generalizing s with
  | nil => exact ⟨hb, hd⟩
  | cons c rest ih =>
      obtain ⟨hb2, hd2⟩ := allocate_preserves_inv s c.1 c.2 hb hd
      simpa [runAllocs] using ih _ hb2 hd2

theorem packPairs_length (l : List Nat) : (packPairs l).length = (l.length + 1) / 2 := by
  induction l using packPairs.induct with
  | case1 => simp [packPairs]
  | case2 c1 => simp [packPairs]
  | case3 c1 c2 rest ih => simp [packPairs, ih]; omega

/-- Encoding a string always produces exactly 32 words. -/
theorem value_to_registers_string_length (codes : List Nat) :
    (value_to_registers_string codes).length = 32 := by
  have h64 : (codes.take 64).length ≤ 64 := by
    simp [List.length_take]
  have hp : (packPairs (codes.take 64)).length ≤ 32 := by
    rw [packPairs_length]; omega
  simp only [value_to_registers_string, List.length_append, List.length_replicate]
  omega

/-- Claim C4 (amended): for any sequence of `allocate_registers` calls
from the initial state — i.e. with no explicit static register mappings
loaded — the ranges of distinct tags never intersect, and the 32 words a
string publish writes exactly fill the tag's allocated range.  (The
original claim also covered explicit static mappings; those can overlap,
see `static_mapping_overlap_counterexample`.) -/
theorem allocation_ranges_disjoint (calls : List (String × String)) :
    (∀ t1 t2 r1 r2, t1 ≠ t2 →
        lookupKey (runAllocs initModbus calls).tag_register_map t1 = some r1 →
        lookupKey (runAllocs initModbus calls).tag_register_map t2 = some r2 →
        r1.start_register + r1.num_registers ≤ r2.start_register ∨
        r2.start_register + r2.num_registers ≤ r1.start_register) ∧
    (∀ t r codes, lookupKey (runAllocs initModbus calls).tag_register_map t = some r →
        r.type = "string" →
        (value_to_registers_string codes).length = r.num_registers) := by
  have hinit_b : AllocBounds initModbus := by
    intro t r hr
    simp [initModbus, lookupKey] at hr
  have hinit_d : AllocDisjoint initModbus := by
    intro t1 t2 r1 r2 _ h1 _
    simp [initModbus, lookupKey] at h1
  obtain ⟨hb, hd⟩ := runAllocs_inv calls initModbus hinit_b hinit_d
  refine ⟨hd, ?_⟩
  intro t r codes hr hty
  obtain ⟨h1, _, _⟩ := hb t r hr
  rw [value_to_registers_string_length, h1, hty]
  rfl

/-- Witness for `allocation_ranges_disjoint`: a float then an int
allocation give the ranges [0,2) and [2,3), which are disjoint, and a
string allocation gets a 32-word range matching the 32 words written. -/
theorem allocation_ranges_disjoint_witness :
    ((0 + 2 ≤ 2 ∨ 2 + 1 ≤ 0) ∧ (value_to_registers_string [104, 105]).length = 32) := by
  constructor
  · exact (allocation_ranges_disjoint [("a", "float"), ("b", "int")]).1
      ("a") ("b") { start_register := 0, num_registers := 2, type := "float" }
      { start_register := 2, num_registers := 1, type := "int" }
      (by decide) (by decide) (by decide)
  · exact (allocation_ranges_disjoint [("s", "string")]).2
      ("s") { start_register := 0, num_registers := 32, type := "string" } [104, 105]
      (by decide) (by decide)

/-- Counterexample to claim C4 as stated: with explicit static register
mappings loaded at startup, two distinct tags can be assigned
intersecting word ranges — the float at register 0 occupies words
{0, 1} and the int at register 1 occupies word {1}. -/
theorem static_mapping_overlap_counterexample :
    ("A" : String) ≠ ("B" : String) ∧
    lookupKey staticOverlapState.tag_register_map ("A") =
      some { start_register := 0, num_registers := 2, type := "float" } ∧
    lookupKey staticOverlapState.tag_register_map ("B") =
      some { start_register := 1, num_registers := 1, type := "int" } ∧
    ¬ (0 + 2 ≤ 1 ∨ 1 + 1 ≤ 0) := by
  refine ⟨by decide, by decide, by decide, by decide⟩

/-- Counterexample to claim C7 as stated: the string encoder maps the
one-character string (code 97) and the two-character string with a
trailing NUL (codes 97, 0) to the same 32 words, so no decoder can
recover the original value for every string of at most the slot
length. -/
theorem string_roundtrip_counterexample :
    value_to_registers_string [97] = value_to_registers_string [97, 0] ∧
    ¬ ∃ dec : List Nat → List Nat,
        ∀ codes : List Nat, codes.length ≤ 64 →
          dec (value_to_registers_string codes) = codes := by
  have henc : value_to_registers_string [97] = value_to_registers_string [97, 0] := by
    decide
  refine ⟨henc, ?_⟩
  rintro ⟨dec, h⟩
  have h1 := h [97] (by decide)
  have h2 := h [97, 0] (by decide)
  rw [henc] at h1
  rw [h1] at h2
  exact (by decide : ¬ (([97] : List Nat) = [97, 0])) h2

theorem shiftLeft_or_byte (c1 c2 : Nat) (h : c2 < 256) :
    (c1 <<< 8) ||| c2 = c1 * 256 + c2 := by
  have h2 : (2 : Nat) ^ 8 * c1 + c2 = 2 ^ 8 * c1 ||| c2 :=
    Nat.mul_add_lt_is_or (by omega) c1
  rw [Nat.shiftLeft_eq, Nat.mul_comm c1 (2 ^ 8), ← h2]

theorem wordsToBytes_append (a b : List Nat) :
    wordsToBytes (a ++ b) = wordsToBytes a ++ wordsToBytes b := by
  induction a with
  | nil => rfl
  | cons w rest ih => simp [wordsToBytes, ih]

theorem wordsToBytes_replicate_zero (k : Nat) :
    wordsToBytes (List.replicate k 0) = List.replicate (2 * k) 0 := by
  induction k with
  | zero => rfl
  | succ n ih =>
      have h2 : 2 * (n + 1) = 2 * n + 1 + 1 := by omega
      simp [List.replicate_succ, wordsToBytes, ih, h2]

/-- Unpacking the packed words of a byte string recovers the bytes, with
one extra zero when the length was odd. -/
theorem wordsToBytes_packPairs (l : List Nat) (h : ∀ c ∈ l, c < 256) :
    wordsToBytes (packPairs l) = l ++ List.replicate (l.length % 2) 0 := by
  induction l using packPairs.induct with
  | case1 => rfl
  | case2 c1 =>
      have hc1 : c1 < 256 := h c1 (by simp)
      have hword : (c1 <<< 8) ||| 0 = c1 * 256 + 0 := shiftLeft_or_byte c1 0 (by omega)
      have hdiv : (c1 * 256 + 0) / 256 = c1 := by omega
      have hmod : (c1 * 256 + 0) % 256 = 0 := by omega
      simp [packPairs, wordsToBytes, hword, hdiv, hmod]
  | case3 c1 c2 rest ih =>
      have hc1 : c1 < 256 := h c1 (by simp)
      have hc2 : c2 < 256 := h c2 (by simp)
      have hword : (c1 <<< 8) ||| c2 = c1 * 256 + c2 := shiftLeft_or_byte c1 c2 hc2
      have hrest : ∀ c ∈ rest, c < 256 := fun c hc => h c (by simp [hc])
      have hdiv : (c1 * 256 + c2) / 256 = c1 := by omega
      have hmod : (c1 * 256 + c2) % 256 = c2 := by omega
      simp only [packPairs, wordsToBytes, hword, hdiv, hmod, ih hrest,
        List.length_cons, List.cons_append]
      have hlen : (rest.length + 1 + 1) % 2 = rest.length % 2 := by omega
      rw [hlen]

theorem dropWhile_replicate_append (p : Nat → Bool) (m : Nat) (x : Nat) (l : List Nat)
    (hx : p x = true) :
    (List.replicate m x ++ l).dropWhile p = l.dropWhile p := by
  induction m with
  | zero => rfl
  | succ n ih => simp [List.replicate_succ, List.dropWhile_cons, hx, ih]

/-- Stripping the zero padding off a NUL-free byte string recovers it. -/
theorem dropTrailingZeros_pad (codes : List Nat) (m : Nat)
    (h : ∀ c ∈ codes, c ≠ 0) :
    dropTrailingZeros (codes ++ List.replicate m 0) = codes := by
  unfold dropTrailingZeros
  rw [List.reverse_append, List.reverse_replicate,
    dropWhile_replicate_append _ m 0 _ (by decide)]
  cases hc : codes.reverse with
  | nil =>
      have : codes = [] := by
        cases codes with
        | nil => rfl
        | cons a t => simp at hc
      simp [this]
  | cons a t =>
      have ha : a ∈ codes := by
        have : a ∈ codes.reverse := by rw [hc]; simp
        simpa using this
      have ha0 : (a == 0) = false := by
        simp only [beq_eq_false_iff_ne]
        exact h a ha
      rw [List.dropWhile_cons_of_neg (by simp [ha0])]
      rw [← hc, List.reverse_reverse]

/-- Claim C7 (amended): decode (modelled from the spec) is the exact
inverse of encode for booleans, for integers in [-32768, 32767], for
every 32-bit IEEE-754 pattern, and for strings of at most 64 code units
all lying in [1, 255].  (Strings containing NUL code units break the
round trip because of the zero padding — see
`string_roundtrip_counterexample` — and code units above 255 do not fit
the byte-pair format.) -/
theorem codec_roundtrip (b : Bool) (v : Int) (bits : Nat) (codes : List Nat)
    (hv1 : -32768 ≤ v) (hv2 : v ≤ 32767) (hbits : bits < 4294967296)
    (hlen : codes.length ≤ 64) (hrange : ∀ c ∈ codes, 1 ≤ c ∧ c ≤ 255) :
    registers_to_bool (value_to_registers_bool b) = b ∧
    registers_to_int (value_to_registers_int v) = v ∧
    registers_to_float (value_to_registers_float bits) = bits ∧
    registers_to_string (value_to_registers_string codes) = codes := by
  refine ⟨?_, ?_, ?_, ?_⟩
  · cases b <;> rfl
  · have hclamp : (if v > 32767 then (32767 : Int)
        else if v < -32768 then -32768 else v) = v := by
      rw [if_neg (by omega), if_neg (by omega)]
    simp only [registers_to_int, value_to_registers_int, hclamp, List.headD_cons]
    split <;> omega
  · have h1 : bits / 65536 * 65536 + bits % 65536 = bits := by omega
    simpa [registers_to_float, value_to_registers_float] using h1
  · have htake : codes.take 64 = codes := List.take_of_length_le hlen
    have h256 : ∀ c ∈ codes, c < 256 := fun c hc => by
      have := hrange c hc; omega
    have h0 : ∀ c ∈ codes, c ≠ 0 := fun c hc => by
      have := hrange c hc; omega
    unfold registers_to_string value_to_registers_string
    rw [htake, wordsToBytes_append, wordsToBytes_packPairs codes h256,
      wordsToBytes_replicate_zero, List.append_assoc, ← List.replicate_add]
    exact dropTrailingZeros_pad codes _ h0

/-- Witness for `codec_roundtrip` at true, 7, the binary32 pattern of
10.0 and the string with codes (104, 105). -/
theorem codec_roundtrip_witness :
    registers_to_bool (value_to_registers_bool true) = true ∧
    registers_to_int (value_to_registers_int 7) = 7 ∧
    registers_to_float (value_to_registers_float 1092616192) = 1092616192 ∧
    registers_to_string (value_to_registers_string [104, 105]) = [104, 105] :=
  codec_roundtrip true 7 1092616192 [104, 105]
    (by decide) (by decide) (by decide) (by decide) (by decide)

/-! ## Alarm engine lemmas -/
theorem process_rule_no_match (clock : ℚ) (tag : String) (value : ℚ) (ts : Option ℚ)
    (s : AlarmsState) (rule : AlarmRule) (h : rule.tag ≠ tag) :
    process_rule clock tag value ts s rule = s := by
  unfold process_rule
  rw [if_pos h]

theorem foldl_process_no_match (clock : ℚ) (tag : String) (value : ℚ) (ts : Option ℚ)
    (rules : List AlarmRule) (s : AlarmsState) (h : ∀ r ∈ rules, r.tag ≠ tag) :
    rules.foldl (process_rule clock tag value ts) s = s := by
  induction rules generalizing s with
  | nil => rfl
  | cons r rest ih =>
      rw [List.foldl_cons, process_rule_no_match _ _ _ _ _ _ (h r (by simp)),
        ih s (fun r2 hr2 => h r2 (by simp [hr2]))]

/-- When exactly one rule of the list watches the tag, the whole rule
loop reduces to processing that rule. -/
theorem foldl_process_singleton (clock : ℚ) (tag : String) (value : ℚ) (ts : Option ℚ)
    (rules : List AlarmRule) (s : AlarmsState) (rule : AlarmRule)
    (h : rules.filter (fun r => r.tag == tag) = [rule]) :
    rules.foldl (process_rule clock tag value ts) s =
      process_rule clock tag value ts s rule := by
  induction rules generalizing s with
  | nil => cases h
  | cons r rest ih =>
      by_cases hr : r.tag = tag
      · rw [List.filter_cons_of_pos (by simpa using hr)] at h
        have hrr : r = rule := (List.cons.injEq _ _ _ _ ▸ h).1
        have hrest : rest.filter (fun r2 => r2.tag == tag) = [] :=
          (List.cons.injEq _ _ _ _ ▸ h).2
        have hnone : ∀ r2 ∈ rest, r2.tag ≠ tag := by
          intro r2 hr2
          have := List.filter_eq_nil_iff.mp hrest r2 hr2
          simpa using this
        rw [List.foldl_cons, hrr,
          foldl_process_no_match clock tag value ts rest _ hnone]
      · rw [List.filter_cons_of_neg (by simpa using hr)] at h
        rw [List.foldl_cons, process_rule_no_match _ _ _ _ _ _ hr, ih s h]

theorem alarms_publish_singleton (clock : ℚ) (s : AlarmsState) (tag : String) (value : ℚ)
    (ts : Option ℚ) (rule : AlarmRule)
    (hE : s.enabled = true) (hR : s.running = true)
    (hfilter : s.parsed_rules.filter (fun r => r.tag == tag) = [rule]) :
    alarms_publish clock s tag value ts = process_rule clock tag value ts s rule := by
  unfold alarms_publish
  rw [hE, hR]
  simpa using foldl_process_singleton clock tag value ts s.parsed_rules s rule hfilter

/-- The update branch of `publish`: condition still true while the alarm
is active only rewrites `last_value` and `last_update`. -/
theorem process_rule_update (clock : ℚ) (tag : String) (value : ℚ) (ts : Option ℚ)
    (s : AlarmsState) (rule : AlarmRule) (a : Alarm)
    (hmatch : rule.tag = tag)
    (hcond : evaluate_condition value rule.condition rule.threshold = true)
    (hactive : lookupKey s.active_alarms (rule_key rule.name tag) = some a) :
    process_rule clock tag value ts s rule =
      { s with
          active_alarms := setKey s.active_alarms (rule_key rule.name tag)
            (updatedAlarm a value (effTime clock ts)) } := by
  unfold process_rule
  rw [if_neg (by simp [hmatch])]
  simp only [hmatch, hcond, hactive, if_true]
  rfl

/-- The trigger branch of `publish` on a fresh key (no active alarm, no
prior notification): creates the record, stores and logs it. -/
theorem process_rule_trigger (clock : ℚ) (tag : String) (value : ℚ) (ts : Option ℚ)
    (s : AlarmsState) (rule : AlarmRule)
    (hmatch : rule.tag = tag)
    (hcond : evaluate_condition value rule.condition rule.threshold = true)
    (hactive : lookupKey s.active_alarms (rule_key rule.name tag) = none)
    (hnotif : lookupKey s.last_notification (rule_key rule.name tag) = none) :
    process_rule clock tag value ts s rule =
      { s with
          active_alarms := setKey s.active_alarms (rule_key rule.name tag)
            (freshAlarm rule tag value (effTime clock ts))
          alarm_history := dequeAppend s.history_size s.alarm_history
            (freshAlarm rule tag value (effTime clock ts))
          notifications_sent := s.notifications_sent ++
            [freshAlarm rule tag value (effTime clock ts)]
          last_notification := setKey s.last_notification (rule_key rule.name tag)
            (effTime clock ts) } := by
  simp [process_rule, trigger_alarm, hmatch, hcond, hactive, hnotif]

/-- The auto-clear branch of `publish`: condition false with an active
alarm and `auto_clear` clears and archives it. -/
theorem process_rule_clear (clock : ℚ) (tag : String) (value : ℚ) (ts : Option ℚ)
    (s : AlarmsState) (rule : AlarmRule) (a : Alarm)
    (hmatch : rule.tag = tag)
    (hcond : evaluate_condition value rule.condition rule.threshold = false)
    (hactive : lookupKey s.active_alarms (rule_key rule.name tag) = some a)
    (hauto : rule.auto_clear = true)
    (hch : rule.channels.contains ("clear") = false) :
    process_rule clock tag value ts s rule =
      { s with
          active_alarms := eraseKey s.active_alarms (rule_key rule.name tag)
          alarm_history := dequeAppend s.history_size s.alarm_history
            { a with
                status := AlarmStatus.CLEARED
                cleared_at := some (effTime clock ts)
                cleared_value := some value } } := by
  simp [process_rule, clear_alarm, hmatch, hcond, hactive, hauto, hch]
  simpa using hch

/-- `publish` does nothing when the condition is false, the alarm is
active, but `auto_clear` is off. -/
theorem process_rule_no_auto_clear (clock : ℚ) (tag : String) (value : ℚ) (ts : Option ℚ)
    (s : AlarmsState) (rule : AlarmRule)
    (hmatch : rule.tag = tag)
    (hcond : evaluate_condition value rule.condition rule.threshold = false)
    (hauto : rule.auto_clear = false) :
    process_rule clock tag value ts s rule = s := by
  simp [process_rule, hmatch, hcond, hauto]

theorem dequeAppend_of_lt {α : Type} (maxlen : Nat) (xs : List α) (x : α)
    (h : xs.length < maxlen) : dequeAppend maxlen xs x = xs ++ [x] := by
  unfold dequeAppend
  rw [if_neg (by simp; omega)]

/-- The clear branch, described on the fields the claims constrain
(whether or not a `"clear"` notification channel is configured, only
`notifications_sent` differs). -/
theorem process_rule_clear_fields (clock : ℚ) (tag : String) (value : ℚ) (ts : Option ℚ)
    (s : AlarmsState) (rule : AlarmRule) (a : Alarm)
    (hmatch : rule.tag = tag)
    (hcond : evaluate_condition value rule.condition rule.threshold = false)
    (hactive : lookupKey s.active_alarms (rule_key rule.name tag) = some a)
    (hauto : rule.auto_clear = true) :
    ∃ ns, process_rule clock tag value ts s rule =
      { s with
          active_alarms := eraseKey s.active_alarms (rule_key rule.name tag)
          alarm_history := dequeAppend s.history_size s.alarm_history
            { a with
                status := AlarmStatus.CLEARED
                cleared_at := some (effTime clock ts)
                cleared_value := some value }
          notifications_sent := ns } := by
  by_cases hch : rule.channels.contains ("clear") = true
  · refine ⟨s.notifications_sent ++
      [{ a with
           status := AlarmStatus.CLEARED
           cleared_at := some (effTime clock ts)
           cleared_value := some value
           message := ("CLEARED: ") ++ rule.message }], ?_⟩
    simp [process_rule, clear_alarm, hmatch, hcond, hactive, hauto, hch]
    simpa using hch
  · refine ⟨s.notifications_sent, ?_⟩
    rw [process_rule_clear clock tag value ts s rule a hmatch hcond hactive hauto
      (by simpa using hch)]

/-- While an alarm stays active and its `>` condition keeps holding,
every further update only rewrites `last_value` / `last_update` of the
stored record: no notification, no history entry, no re-trigger —
regardless of how much time passes. -/
theorem alarms_publish_seq_update_only (rules0 : List AlarmRule) (rule : AlarmRule)
    (tag : String) (updates : List (ℚ × ℚ × Option ℚ)) (st : AlarmsState) (A0 : Alarm)
    (hfilter : rules0.filter (fun r => r.tag == tag) = [rule])
    (hcondS : rule.condition = ">")
    (hall : ∀ u ∈ updates, u.2.1 > rule.threshold)
    (hE : st.enabled = true) (hR : st.running = true)
    (hrules : st.parsed_rules = rules0)
    (hkey : ∃ lv lu, lookupKey st.active_alarms (rule_key rule.name tag) =
        some (updatedAlarm A0 lv lu)) :
    (alarms_publish_seq st tag updates).enabled = true ∧
    (alarms_publish_seq st tag updates).running = true ∧
    (alarms_publish_seq st tag updates).parsed_rules = rules0 ∧
    (∃ lv lu, lookupKey (alarms_publish_seq st tag updates).active_alarms
        (rule_key rule.name tag) = some (updatedAlarm A0 lv lu)) ∧
    (alarms_publish_seq st tag updates).notifications_sent = st.notifications_sent ∧
    (alarms_publish_seq st tag updates).alarm_history = st.alarm_history ∧
    (alarms_publish_seq st tag updates).last_notification = st.last_notification := by
  induction updates generalizing st with
  | nil => exact ⟨hE, hR, hrules, hkey, rfl, rfl, rfl⟩
  | cons u rest ih =>
      obtain ⟨lv, lu, hlook⟩ := hkey
      have hcond : evaluate_condition u.2.1 rule.condition rule.threshold = true := by
        simp only [evaluate_condition, hcondS, if_true, decide_eq_true_eq]
        exact hall u (by simp)
      have hmatch : rule.tag = tag := by
        have hmem : rule ∈ rules0.filter (fun r => r.tag == tag) := by
          rw [hfilter]; simp
        have := List.mem_filter.mp hmem
        simpa using this.2
      have hpub : alarms_publish u.1 st tag u.2.1 u.2.2 =
          { st with
              active_alarms := setKey st.active_alarms (rule_key rule.name tag)
                (updatedAlarm A0 u.2.1 (effTime u.1 u.2.2)) } := by
        rw [alarms_publish_singleton u.1 st tag u.2.1 u.2.2 rule hE hR
          (by rw [hrules]; exact hfilter)]
        exact process_rule_update u.1 tag u.2.1 u.2.2 st rule (updatedAlarm A0 lv lu)
          hmatch hcond hlook
      have hstep : alarms_publish_seq st tag (u :: rest) =
          alarms_publish_seq (alarms_publish u.1 st tag u.2.1 u.2.2) tag rest := rfl
      rw [hstep, hpub]
      exact ih
        ({ st with
            active_alarms := setKey st.active_alarms (rule_key rule.name tag)
              (updatedAlarm A0 u.2.1 (effTime u.1 u.2.2)) })
        (fun u2 hu2 => hall u2 (by simp [hu2]))
        hE hR hrules
        ⟨u.2.1, effTime u.1 u.2.2, lookupKey_setKey_self _ _ _⟩

/-- Claim C2: debounce lifecycle of a `>` rule starting from the
inactive state.  The first satisfying update creates exactly one ACTIVE
alarm (one new binding in the active set) and sends exactly one
notification; every later satisfying update — at arbitrary later times,
in particular beyond the debounce window — only rewrites the record's
`last_value` / `last_update`, keeps the same logical alarm (same
`triggered_at`, `triggered_value`, still ACTIVE) and sends nothing new. -/
theorem alarm_debounce_lifecycle (s : AlarmsState) (rule : AlarmRule) (tag : String)
    (clock0 v0 : ℚ) (ts0 : Option ℚ) (updates : List (ℚ × ℚ × Option ℚ))
    (hE : s.enabled = true) (hR : s.running = true)
    (hfilter : s.parsed_rules.filter (fun r => r.tag == tag) = [rule])
    (hcondS : rule.condition = ">")
    (hactive : lookupKey s.active_alarms (rule_key rule.name tag) = none)
    (hnotif : lookupKey s.last_notification (rule_key rule.name tag) = none)
    (hv0 : v0 > rule.threshold)
    (hall : ∀ u ∈ updates, u.2.1 > rule.threshold) :
    (alarms_publish clock0 s tag v0 ts0).active_alarms =
      setKey s.active_alarms (rule_key rule.name tag)
        (freshAlarm rule tag v0 (effTime clock0 ts0)) ∧
    (alarms_publish clock0 s tag v0 ts0).notifications_sent =
      s.notifications_sent ++ [freshAlarm rule tag v0 (effTime clock0 ts0)] ∧
    (freshAlarm rule tag v0 (effTime clock0 ts0)).status = AlarmStatus.ACTIVE ∧
    (∃ lv lu,
      lookupKey (alarms_publish_seq (alarms_publish clock0 s tag v0 ts0) tag
          updates).active_alarms (rule_key rule.name tag) =
        some (updatedAlarm (freshAlarm rule tag v0 (effTime clock0 ts0)) lv lu)) ∧
    (alarms_publish_seq (alarms_publish clock0 s tag v0 ts0) tag
        updates).notifications_sent =
      s.notifications_sent ++ [freshAlarm rule tag v0 (effTime clock0 ts0)] := by
  have hmatch : rule.tag = tag := by
    have hmem : rule ∈ s.parsed_rules.filter (fun r => r.tag == tag) := by
      rw [hfilter]; simp
    have := List.mem_filter.mp hmem
    simpa using this.2
  have hcond : evaluate_condition v0 rule.condition rule.threshold = true := by
    simp only [evaluate_condition, hcondS, if_true, decide_eq_true_eq]
    exact hv0
  have hs1 : alarms_publish clock0 s tag v0 ts0 =
      { s with
          active_alarms := setKey s.active_alarms (rule_key rule.name tag)
            (freshAlarm rule tag v0 (effTime clock0 ts0))
          alarm_history := dequeAppend s.history_size s.alarm_history
            (freshAlarm rule tag v0 (effTime clock0 ts0))
          notifications_sent := s.notifications_sent ++
            [freshAlarm rule tag v0 (effTime clock0 ts0)]
          last_notification := setKey s.last_notification (rule_key rule.name tag)
            (effTime clock0 ts0) } := by
    rw [alarms_publish_singleton clock0 s tag v0 ts0 rule hE hR hfilter]
    exact process_rule_trigger clock0 tag v0 ts0 s rule hmatch hcond hactive hnotif
  have hseq := alarms_publish_seq_update_only s.parsed_rules rule tag updates
    (alarms_publish clock0 s tag v0 ts0)
    (freshAlarm rule tag v0 (effTime clock0 ts0))
    hfilter hcondS hall
    (by rw [hs1]; exact hE) (by rw [hs1]; exact hR) (by rw [hs1])
    ⟨(freshAlarm rule tag v0 (effTime clock0 ts0)).last_value,
     (freshAlarm rule tag v0 (effTime clock0 ts0)).last_update,
     by rw [hs1]; exact lookupKey_setKey_self _ _ _⟩
  refine ⟨by rw [hs1], by rw [hs1], rfl, hseq.2.2.2.1, ?_⟩
  rw [hseq.2.2.2.2.1, hs1]

/-- Witness for `alarm_debounce_lifecycle`, at the spec scenario: rule
{tag T, > 25, debounce 60}, T=30 at t=1, then T=31 at t=11 and T=31 at
t=62 (past the debounce window). -/
theorem alarm_debounce_lifecycle_witness :
    (alarms_publish 1 demoAlarmsState ("T") 30 (some 1)).active_alarms =
      setKey [] (rule_key ("High") ("T")) (freshAlarm demoRule ("T") 30 1) ∧
    (alarms_publish 1 demoAlarmsState ("T") 30 (some 1)).notifications_sent =
      [] ++ [freshAlarm demoRule ("T") 30 1] ∧
    (freshAlarm demoRule ("T") 30 1).status = AlarmStatus.ACTIVE ∧
    (∃ lv lu,
      lookupKey (alarms_publish_seq (alarms_publish 1 demoAlarmsState ("T") 30 (some 1))
          ("T") [(11, 31, some 11), (62, 31, some 62)]).active_alarms
          (rule_key ("High") ("T")) =
        some (updatedAlarm (freshAlarm demoRule ("T") 30 1) lv lu)) ∧
    (alarms_publish_seq (alarms_publish 1 demoAlarmsState ("T") 30 (some 1)) ("T")
        [(11, 31, some 11), (62, 31, some 62)]).notifications_sent =
      [] ++ [freshAlarm demoRule ("T") 30 1] := by
  have h := alarm_debounce_lifecycle demoAlarmsState demoRule ("T") 1 30 (some 1)
    [(11, 31, some 11), (62, 31, some 62)]
    rfl rfl (by decide) rfl rfl rfl (by decide) (by decide)
  simpa [demoAlarmsState] using h

/-- Claim C3: with `auto_clear = true`, an update that falsifies the
condition clears the active alarm — status CLEARED, `cleared_at`
stamped, exactly one CLEARED record appended to the history, binding
removed from the active set; with `auto_clear = false` the publisher
state is completely unchanged. -/
theorem alarm_auto_clear (clock : ℚ) (s : AlarmsState) (rule : AlarmRule) (tag : String)
    (v : ℚ) (ts : Option ℚ) (a : Alarm)
    (hE : s.enabled = true) (hR : s.running = true)
    (hfilter : s.parsed_rules.filter (fun r => r.tag == tag) = [rule])
    (hactive : lookupKey s.active_alarms (rule_key rule.name tag) = some a)
    (hcond : evaluate_condition v rule.condition rule.threshold = false) :
    (rule.auto_clear = true →
      (alarms_publish clock s tag v ts).active_alarms =
        eraseKey s.active_alarms (rule_key rule.name tag) ∧
      lookupKey (alarms_publish clock s tag v ts).active_alarms
        (rule_key rule.name tag) = none ∧
      (alarms_publish clock s tag v ts).alarm_history =
        dequeAppend s.history_size s.alarm_history
          { a with
              status := AlarmStatus.CLEARED
              cleared_at := some (effTime clock ts)
              cleared_value := some v } ∧
      (s.alarm_history.length < s.history_size →
        (alarms_publish clock s tag v ts).alarm_history =
          s.alarm_history ++
            [{ a with
                 status := AlarmStatus.CLEARED
                 cleared_at := some (effTime clock ts)
                 cleared_value := some v }])) ∧
    (rule.auto_clear = false → alarms_publish clock s tag v ts = s) := by
  have hmatch : rule.tag = tag := by
    have hmem : rule ∈ s.parsed_rules.filter (fun r => r.tag == tag) := by
      rw [hfilter]; simp
    have := List.mem_filter.mp hmem
    simpa using this.2
  constructor
  · intro hauto
    obtain ⟨ns, hclear⟩ :=
      process_rule_clear_fields clock tag v ts s rule a hmatch hcond hactive hauto
    have hpub :=
      (alarms_publish_singleton clock s tag v ts rule hE hR hfilter).trans hclear
    refine ⟨by rw [hpub], ?_, by rw [hpub], ?_⟩
    · rw [hpub]
      exact lookupKey_eraseKey_self _ _
    · intro hlen
      rw [hpub]
      exact dequeAppend_of_lt _ _ _ hlen
  · intro hauto
    rw [alarms_publish_singleton clock s tag v ts rule hE hR hfilter]
    exact process_rule_no_auto_clear clock tag v ts s rule hmatch hcond hauto

/-- Witness for `alarm_auto_clear`: after the alarm of the demo scenario
is active, feeding T=10 (condition false) clears it and appends the one
CLEARED history record. -/
theorem alarm_auto_clear_witness :
    (alarms_publish 70 (alarms_publish 1 demoAlarmsState ("T") 30 (some 1)) ("T") 10
        (some 70)).active_alarms =
      eraseKey (alarms_publish 1 demoAlarmsState ("T") 30 (some 1)).active_alarms
        (rule_key ("High") ("T")) ∧
    lookupKey (alarms_publish 70 (alarms_publish 1 demoAlarmsState ("T") 30 (some 1))
        ("T") 10 (some 70)).active_alarms (rule_key ("High") ("T")) = none ∧
    (alarms_publish 70 (alarms_publish 1 demoAlarmsState ("T") 30 (some 1)) ("T") 10
        (some 70)).alarm_history =
      (alarms_publish 1 demoAlarmsState ("T") 30 (some 1)).alarm_history ++
        [{ freshAlarm demoRule ("T") 30 1 with
             status := AlarmStatus.CLEARED
             cleared_at := some 70
             cleared_value := some 10 }] := by
  have h := alarm_auto_clear 70 (alarms_publish 1 demoAlarmsState ("T") 30 (some 1))
    demoRule ("T") 10 (some 70) (freshAlarm demoRule ("T") 30 1)
    (by decide) (by decide) (by decide) (by decide) (by decide)
  have h2 := h.1 (by decide)
  refine ⟨h2.1, h2.2.1, ?_⟩
  have h3 := h2.2.2.2 (by decide)
  simpa using h3

/-- Claim C10: the key `rule_name + "_" + tag_name` is not injective —
("A_B", "C") and ("A", "B_C") collide — and the collision is observable:
after rule "A_B" triggers on tag "C", acknowledging the never-triggered
pair ("A", "B_C") reports success and mutates the alarm record belonging
to ("A_B", "C"). -/
theorem alarm_key_collision :
    rule_key ("A_B") ("C") = rule_key ("A") ("B_C") ∧
    (("A_B", "C") : String × String) ≠ (("A", "B_C") : String × String) ∧
    (acknowledge_alarm 10 collisionState1 ("A") ("B_C") ("op")).1 = true ∧
    lookupKey (acknowledge_alarm 10 collisionState1 ("A") ("B_C") ("op")).2.active_alarms
        (rule_key ("A") ("B_C")) =
      some { rule_name := "A_B"
             tag := "C"
             priority := "WARNING"
             message := "m"
             triggered_value := 30
             last_value := 30
             triggered_at := 5
             last_update := 5
             cleared_at := none
             cleared_value := none
             status := AlarmStatus.ACTIVE
             acknowledged := true
             acknowledged_by := some ("op")
             acknowledged_at := some 10 } := by
  refine ⟨rfl, by decide, by decide, by decide⟩

/-! ## Dispatcher lemmas and claim C1 -/
/-- Characterization of the `publish_to_all` loop: the sinks are mapped
through `sinkAfter` and the two counter maps accumulate one bump per
recorded message / error. -/
theorem publish_fold (hp : Bool) (tag : String) (value : ℚ) (sinks : List Sink)
    (acc : ManagerState) :
    sinks.foldl (publish_step hp tag value) acc =
      { sinks := acc.sinks ++ sinks.map (sinkAfter tag value)
        message_counts := sinks.foldl
          (fun mc s2 => if (!s2.fails) && (!s2.isPrometheus) && hp then bump mc s2.name else mc)
          acc.message_counts
        error_counts := sinks.foldl
          (fun ec s2 => if s2.fails && hp then bump ec s2.name else ec)
          acc.error_counts } := by
  induction sinks generalizing acc with
  | nil => simp
  | cons s2 rest ih =>
      rw [List.foldl_cons, ih]
      cases hf : s2.fails
      · cases hpv : hp
        · cases hip : s2.isPrometheus <;>
            simp [publish_step, sink_publish, sinkAfter, hf, hpv, hip]
        · cases hip : s2.isPrometheus <;>
            simp [publish_step, sink_publish, sinkAfter, hf, hpv, hip]
      · cases hpv : hp <;>
          simp [publish_step, sink_publish, sinkAfter, hf, hpv]

theorem lookupKey_bump_self (m : List (String × Nat)) (k : String) :
    (lookupKey (bump m k) k).getD 0 = (lookupKey m k).getD 0 + 1 := by
  unfold bump
  rw [lookupKey_setKey_self]
  rfl

theorem lookupKey_bump_ne (m : List (String × Nat)) (k k2 : String) (h : k2 ≠ k) :
    lookupKey (bump m k) k2 = lookupKey m k2 := by
  unfold bump
  exact lookupKey_setKey_ne _ _ _ _ h

/-- The error-counter fold bumps the counter of name `n` once per
failing sink carrying that name (when a Prometheus sink is present). -/
theorem fold_err_count (hp : Bool) (sinks : List Sink) (ec : List (String × Nat))
    (n : String) :
    (lookupKey (sinks.foldl
        (fun ec2 s2 => if s2.fails && hp then bump ec2 s2.name else ec2) ec) n).getD 0
      = (lookupKey ec n).getD 0 +
          (if hp then sinks.countP (fun s2 => s2.fails && s2.name == n) else 0) := by
  induction sinks generalizing ec with
  | nil => cases hp <;> simp
  | cons s2 rest ih =>
      rw [List.foldl_cons, ih]
      cases hpv : hp
      · simp [hpv]
      · cases hf : s2.fails
        · simp [List.countP_cons, hf]
        · by_cases hn : s2.name = n
          · rw [if_pos (by simp [hf, hpv])]
            rw [hn, lookupKey_bump_self]
            simp [List.countP_cons, hf, hn]
            omega
          · rw [if_pos (by simp [hf, hpv])]
            rw [lookupKey_bump_ne _ _ _ (fun h2 => hn h2.symm)]
            simp [List.countP_cons, hf, hn]

/-- Claim C1: fan-out isolation.  With the registered sinks split as
`pre ++ bad :: post` where only `bad`'s publish raises, one dispatcher
call delivers the update to the cache of every other sink, leaves the
failing sink's state untouched, completes without raising (it is a total
function of the state), and — the counters being hosted by the
registered Prometheus sink — increments the failing sink's error counter
by exactly one. -/
theorem fanout_isolation (pre post : List Sink) (bad : Sink)
    (mc ec : List (String × Nat)) (tag : String) (value : ℚ)
    (hbad : bad.fails = true)
    (hpre : ∀ s2 ∈ pre, s2.fails = false)
    (hpost : ∀ s2 ∈ post, s2.fails = false)
    (hprom : (pre ++ bad :: post).any (fun s2 => s2.isPrometheus) = true) :
    (publish_to_all ⟨pre ++ bad :: post, mc, ec⟩ tag value).sinks =
      pre.map (fun s2 => { s2 with cache := setKey s2.cache tag value }) ++
        bad :: post.map (fun s2 => { s2 with cache := setKey s2.cache tag value }) ∧
    (lookupKey (publish_to_all ⟨pre ++ bad :: post, mc, ec⟩ tag value).error_counts
        bad.name).getD 0 = (lookupKey ec bad.name).getD 0 + 1 := by
  have hmain : publish_to_all ⟨pre ++ bad :: post, mc, ec⟩ tag value =
      { sinks := [] ++ (pre ++ bad :: post).map (sinkAfter tag value)
        message_counts := (pre ++ bad :: post).foldl
          (fun mc2 s2 => if (!s2.fails) && (!s2.isPrometheus) && true then bump mc2 s2.name else mc2)
          mc
        error_counts := (pre ++ bad :: post).foldl
          (fun ec2 s2 => if s2.fails && true then bump ec2 s2.name else ec2)
          ec } := by
    unfold publish_to_all
    simp only [hprom]
    exact publish_fold true tag value (pre ++ bad :: post) ⟨[], mc, ec⟩
  constructor
  · rw [hmain]
    simp only [List.nil_append, List.map_append, List.map_cons]
    have h1 : pre.map (sinkAfter tag value) =
        pre.map (fun s2 => { s2 with cache := setKey s2.cache tag value }) :=
      List.map_congr_left (fun s2 hs2 => by simp [sinkAfter, hpre s2 hs2])
    have h2 : post.map (sinkAfter tag value) =
        post.map (fun s2 => { s2 with cache := setKey s2.cache tag value }) :=
      List.map_congr_left (fun s2 hs2 => by simp [sinkAfter, hpost s2 hs2])
    rw [h1, h2]
    simp [sinkAfter, hbad]
  · rw [hmain]
    simp only
    rw [fold_err_count true (pre ++ bad :: post) ec bad.name]
    have hc1 : pre.countP (fun s2 => s2.fails && s2.name == bad.name) = 0 := by
      rw [List.countP_eq_zero]
      intro s2 hs2
      simp [hpre s2 hs2]
    have hc2 : post.countP (fun s2 => s2.fails && s2.name == bad.name) = 0 := by
      rw [List.countP_eq_zero]
      intro s2 hs2
      simp [hpost s2 hs2]
    rw [List.countP_append, List.countP_cons]
    simp [hc1, hc2, hbad]

/-- Witness for `fanout_isolation`: sinks {A succeeds, B always throws,
Prom} — A's cache receives the update, B's error counter reads exactly
1. -/
theorem fanout_isolation_witness :
    (publish_to_all
        ⟨[{ name := "A", isPrometheus := false, fails := false, cache := [] },
          { name := "B", isPrometheus := false, fails := true, cache := [] },
          { name := "Prom", isPrometheus := true, fails := false, cache := [] }],
         [], []⟩ ("T") 7).sinks =
      [{ name := "A", isPrometheus := false, fails := false, cache := [(("T"), 7)] },
       { name := "B", isPrometheus := false, fails := true, cache := [] },
       { name := "Prom", isPrometheus := true, fails := false, cache := [(("T"), 7)] }] ∧
    (lookupKey (publish_to_all
        ⟨[{ name := "A", isPrometheus := false, fails := false, cache := [] },
          { name := "B", isPrometheus := false, fails := true, cache := [] },
          { name := "Prom", isPrometheus := true, fails := false, cache := [] }],
         [], []⟩ ("T") 7).error_counts ("B")).getD 0 = 0 + 1 := by
  have h := fanout_isolation
    [{ name := "A", isPrometheus := false, fails := false, cache := [] }]
    [{ name := "Prom", isPrometheus := true, fails := false, cache := [] }]
    { name := "B", isPrometheus := false, fails := true, cache := [] }
    [] [] ("T") 7 (by decide) (by decide) (by decide) (by decide)
  exact ⟨h.1, h.2⟩

/-! ## Claim C8: toggle failure reporting -/
/-- Counterexample to claim C8 as stated: enabling an MQTT publisher
whose broker connection fails.  `MQTTPublisher.start` catches the
connection error itself (`running` stays false — the sink did not
start), so the manager sees a normal return: the toggle reports success
and leaves `enabled = true`, contradicting "for any cause of start
failure, enabled is false and the toggle returns False". -/
theorem toggle_counterexample :
    mqtt_start false
        { name := "MQTT", enabled := true, running := false, startB := StartBehavior.caught } =
      { name := "MQTT", enabled := true, running := false, startB := StartBehavior.caught } ∧
    mqttBehavior false = StartBehavior.caught ∧
    toggle_publisher
        [{ name := "MQTT", enabled := false, running := false, startB := StartBehavior.caught }]
        ("MQTT") =
      (true,
        [{ name := "MQTT", enabled := true, running := false, startB := StartBehavior.caught }]) := by
  refine ⟨rfl, rfl, rfl⟩

/-- Claim C8 (amended): `toggle_publisher` flips the named sink's
`enabled` flag and calls start/stop accordingly; `enabled` reverts to
false with the toggle returning False exactly when `start()` raises an
exception that escapes to the manager.  A start failure the publisher
catches internally — e.g. an MQTT connection error — returns normally,
so the toggle reports success and `enabled` stays true. -/
theorem toggle_flips_and_reports (pre post : List Publisher) (p : Publisher) (nm : String)
    (hpre : ∀ q ∈ pre, q.name ≠ nm) (hp : p.name = nm) :
    (toggle_publisher (pre ++ p :: post) nm).2 =
      pre ++ (toggle_found p).2 :: post ∧
    (toggle_publisher (pre ++ p :: post) nm).1 = (toggle_found p).1 ∧
    (p.enabled = false → p.startB = StartBehavior.raises →
        (toggle_found p).1 = false ∧ (toggle_found p).2.enabled = false) ∧
    (p.enabled = false → p.startB ≠ StartBehavior.raises →
        (toggle_found p).1 = true ∧ (toggle_found p).2.enabled = true) ∧
    (p.enabled = true →
        (toggle_found p).1 = true ∧
        (toggle_found p).2 = { p with enabled := false, running := false }) := by
  refine ⟨?_, ?_, ?_, ?_, ?_⟩
  · induction pre with
    | nil => simp [toggle_publisher, hp]
    | cons q rest ih =>
        have hq : ¬ q.name = nm := hpre q (by simp)
        simp only [List.cons_append, toggle_publisher, if_neg hq]
        exact congrArg (fun l => q :: l) (ih (fun q2 hq2 => hpre q2 (by simp [hq2])))
  · induction pre with
    | nil => simp [toggle_publisher, hp]
    | cons q rest ih =>
        have hq : ¬ q.name = nm := hpre q (by simp)
        simp only [List.cons_append, toggle_publisher, if_neg hq]
        exact ih (fun q2 hq2 => hpre q2 (by simp [hq2]))
  · intro hen hraise
    simp [toggle_found, pub_start, hen, hraise]
  · intro hen hnraise
    cases hb : p.startB
    · simp [toggle_found, pub_start, hen, hb]
    · simp [toggle_found, pub_start, hen, hb]
    · exact absurd hb hnraise
  · intro hen
    simp [toggle_found, pub_stop, hen]

/-- Witness for `toggle_flips_and_reports`: a publisher whose start
raises is reverted and reported; the MQTT publisher with a dead broker
is not; an enabled publisher is stopped and disabled. -/
theorem toggle_flips_and_reports_witness :
    (toggle_publisher
        [{ name := "K", enabled := false, running := false, startB := StartBehavior.raises }]
        ("K")).2 =
      [] ++ (toggle_found
        { name := "K", enabled := false, running := false, startB := StartBehavior.raises }).2
        :: [] ∧
    (toggle_found
        { name := "K", enabled := false, running := false, startB := StartBehavior.raises }).1
      = false ∧
    (toggle_found
        { name := "MQTT", enabled := false, running := false, startB := StartBehavior.caught }).1
      = true ∧
    (toggle_found
        { name := "MQTT", enabled := false, running := false, startB := StartBehavior.caught
        }).2.enabled = true := by
  have h1 := toggle_flips_and_reports [] []
    { name := "K", enabled := false, running := false, startB := StartBehavior.raises }
    ("K") (by simp) rfl
  have h2 := toggle_flips_and_reports [] []
    { name := "MQTT", enabled := false, running := false, startB := StartBehavior.caught }
    ("MQTT") (by simp) rfl
  exact ⟨h1.1, (h1.2.2.1 rfl rfl).1, (h2.2.2.2.1 rfl (by simp)).1,
    (h2.2.2.2.1 rfl (by simp)).2⟩

/-! ## Claim C9: accept outside the started interval -/
/-- Counterexample to claim C9 as stated: the REST API sink's `publish`
checks only `enabled`, never `running`.  After `stop()` (or before
`start()`), with the sink still configured enabled, a delivered update
DOES modify the tag cache. -/
theorem rest_publish_after_stop_counterexample :
    (rest_stop { enabled := true, running := true, tag_cache := [] }).running = false ∧
    (rest_publish 5 (rest_stop { enabled := true, running := true, tag_cache := [] })
        ("T") 1 none).tag_cache =
      [(("T"), { value := 1, timestamp := 5 })] ∧
    (rest_publish 5 (rest_stop { enabled := true, running := true, tag_cache := [] })
        ("T") 1 none).tag_cache ≠
      (rest_stop { enabled := true, running := true, tag_cache := [] }).tag_cache := by
  refine ⟨rfl, rfl, by decide⟩

/-- Claim C9 (amended): a delivery to the REST sink never raises (the
embedding is a total function), and while the sink is *disabled* any
sequence of deliveries is a silent no-op — state, in particular the tag
cache, unchanged.  Deliveries before start or after stop, however, go
through whenever `enabled` is true, because `publish` ignores `running`
(see `rest_publish_after_stop_counterexample`). -/
theorem rest_disabled_noop (s : RESTState) (updates : List (ℚ × String × ℚ × Option ℚ))
    (h : s.enabled = false) :
    rest_publish_seq s updates = s := by
  induction updates with
  | nil => rfl
  | cons u rest ih =>
      have hstep : rest_publish u.1 s u.2.1 u.2.2.1 u.2.2.2 = s := by
        unfold rest_publish
        rw [if_pos (by simp [h])]
      show rest_publish_seq (rest_publish u.1 s u.2.1 u.2.2.1 u.2.2.2) rest = s
      rw [hstep, ih]

/-- Witness for `rest_disabled_noop`: two deliveries to a disabled REST
sink leave it untouched. -/
theorem rest_disabled_noop_witness :
    rest_publish_seq { enabled := false, running := false, tag_cache := [] }
        [(1, ("T"), 3, none), (2, ("U"), 4, some 2)] =
      { enabled := false, running := false, tag_cache := [] } :=
  rest_disabled_noop _ _ rfl

end Spec2Proof
